import Mathlib

/-!
Verification development for the js-typeclasses library.

The library composes "capabilities" (named bundles of members plus four hook
lists) onto dynamically typed objects.  We embed the object model shallowly:

* an object is an open bag of named slots, modelled as an ordered association
  list from slot names to values (`Obj`); a slot that is absent and a slot that
  holds `undefined` both read back as `JVal.undefined`, exactly as property reads
  do in JavaScript, but the slot's *key* is present in the second case, which
  matters for own-key-set claims;
* member values are plain JavaScript values; function members carry an opaque
  identifier, and `attach` rebinds them (modelled by `tc.boundVal`);
* hooks are identified effectful functions on objects that may signal an
  error; `tc.add` / `tc.remove` run the pipeline from
  `tc.addable_with_hooks.members.add` / `.remove` (typeclass.js lines 82-100),
  recording an event trace and stopping at the first signalled error, with the
  partially mutated object preserved (JavaScript `throw` does not roll back
  prior slot writes).
-/

inductive JAtom where
  | undefined
  | jnull
  | jbool (b : Bool)
  | num (n : Int)
  | str (s : String)
  | fn (id : Nat)
  | bound (id : Nat)
deriving DecidableEq, Repr

inductive JVal where
  | atom (a : JAtom)
  | arr (elems : List JVal)

/-- Shorthand for the `undefined` value. -/
abbrev JVal.undefined : JVal := .atom .undefined

/-- Shorthand for the `null` value. -/
abbrev JVal.jnull : JVal := .atom .jnull

/-- Shorthand for boolean values. -/
abbrev JVal.jbool (b : Bool) : JVal := .atom (.jbool b)

/-- Shorthand for numeric values (the claims only need integers). -/
abbrev JVal.num (n : Int) : JVal := .atom (.num n)

/-- Shorthand for string values. -/
abbrev JVal.str (s : String) : JVal := .atom (.str s)

/-- Shorthand for an (unbound) function value, identified opaquely. -/
abbrev JVal.fn (id : Nat) : JVal := .atom (.fn id)

/-- Shorthand for a function value rebound to an instance by `tc.bind`. -/
abbrev JVal.bound (id : Nat) : JVal := .atom (.bound id)

mutual

/-- Structural equality test on values; `boolEqList` compares element lists
pointwise. -/
def JVal.boolEq : JVal → JVal → Bool
  | .atom a, .atom b => a == b
  | .arr xs, .arr ys => JVal.boolEqList xs ys
  | .atom _, .arr _ => false
  | .arr _, .atom _ => false

/-- Pointwise structural equality on lists of values. -/
def JVal.boolEqList : List JVal → List JVal → Bool
  | [], [] => true
  | x :: xs, y :: ys => JVal.boolEq x y && JVal.boolEqList xs ys
  | [], _ :: _ => false
  | _ :: _, [] => false

end

mutual

theorem JVal.boolEq_iff : ∀ a b : JVal, JVal.boolEq a b = true ↔ a = b
  | .atom a, .atom b => by
    simp [JVal.boolEq, beq_iff_eq]
  | .atom _, .arr _ => by
    simp [JVal.boolEq]
  | .arr _, .atom _ => by
    simp [JVal.boolEq]
  | .arr xs, .arr ys => by
    simp [JVal.boolEq, JVal.boolEqList_iff xs ys]

theorem JVal.boolEqList_iff : ∀ xs ys : List JVal, JVal.boolEqList xs ys = true ↔ xs = ys
  | [], [] => by simp [JVal.boolEqList]
  | [], _ :: _ => by simp [JVal.boolEqList]
  | _ :: _, [] => by simp [JVal.boolEqList]
  | x :: xs, y :: ys => by
    simp [JVal.boolEqList, Bool.and_eq_true, JVal.boolEq_iff x y,
      JVal.boolEqList_iff xs ys]

end

instance : DecidableEq JVal := fun a b =>
  decidable_of_iff (JVal.boolEq a b = true) (JVal.boolEq_iff a b)

abbrev Obj := List (String × JVal)

/-- Property read `obj[k]`: the value of the first slot named `k`, or
`undefined` when no such slot exists. -/
def getSlot : Obj → String → JVal
  | [], _ => .undefined
  | p :: t, k => if p.1 = k then p.2 else getSlot t k

/-- Property write `obj[k] = v`: overwrites the existing slot in place
(keeping its position, as JavaScript does) or appends a new slot. -/
def setSlot : Obj → String → JVal → Obj
  | [], k, v => [(k, v)]
  | p :: t, k, v => if p.1 = k then (k, v) :: t else p :: setSlot t k v

/-- Property deletion `delete obj[k]`. -/
def delSlot (o : Obj) (k : String) : Obj :=
  o.filter fun p => decide (p.1 ≠ k)

/-- Whether `k` is an own key of `obj` (even if its value is `undefined`). -/
def hasKey (o : Obj) (k : String) : Bool :=
  o.any fun p => decide (p.1 = k)

/-- The own-key list of an object. -/
def keysOf (o : Obj) : List String := o.map Prod.fst

/-- JavaScript truthiness of a value, as used by `if (this.error)` in the
error monad: `undefined`, `null`, `false`, `0` and `""` are falsy. -/
def truthy : JVal → Bool
  | .atom .undefined => false
  | .atom .jnull => false
  | .atom (.jbool b) => b
  | .atom (.num n) => decide (n ≠ 0)
  | .atom (.str s) => decide (s ≠ "")
  | .atom (.fn _) => true
  | .atom (.bound _) => true
  | .arr _ => true

/-- Errors signalled by the composition engine: the Collision signal thrown by
the collision checker, the MissingDependency signal thrown by `tc.requires`
hooks, and opaque user errors. -/
inductive Err where
  | collision
  | missingDep
  | user (n : Nat)
deriving DecidableEq, Repr

/-- Events recorded while running the add/remove pipeline: a hook firing
(identified by its registration id), the member-install step, and the
member-delete step. -/
inductive Ev where
  | hook (id : Nat)
  | attach
  | detach
deriving DecidableEq, Repr

/-- A registered hook: an identifier plus its effect on the target object,
possibly signalling an error.  In the source, hooks receive the target object
and may mutate it or throw; their return values are discarded. -/
abbrev Hook := Nat × (Obj → Obj × Option Err)

/-- A capability (typeclass): a member table plus the four hook lists, in
registration order (spec data model; typeclass.js throughout). -/
structure Cap where
  members : List (String × JVal)
  before_add_hooks : List Hook
  after_add_hooks : List Hook
  before_remove_hooks : List Hook
  after_remove_hooks : List Hook

/-- The outcome of running a pipeline: the (possibly partially) mutated
object, the event trace, and the signalled error if one was thrown. -/
structure RunRes where
  obj : Obj
  trace : List Ev
  err : Option Err
deriving DecidableEq

namespace tc

/-- Value installed by `attach` for a member: function-valued members are
rebound to the instance via `tc.bind` (typeclass.js line 63); other values are
copied as-is.  An `undefined`-valued member is falsy, so it is copied as-is
and the slot is created holding `undefined`. -/
def boundVal : JVal → JVal
  | .atom (.fn i) => .atom (.bound i)
  | .atom (.bound i) => .atom (.bound i)
  | v => v

/-- Source `tc.attachable.members.attach` (typeclass.js lines 61-65): copy every
member of the capability onto the object's own slots, in member-table order,
with no collision check. -/
def attach (c : Cap) (o : Obj) : Obj :=
  c.members.foldl (fun acc kv => setSlot acc kv.1 (boundVal kv.2)) o

/-- Source `tc.attachable.members.detach` (typeclass.js lines 67-70): delete every
slot named by the capability's member table. -/
def detach (c : Cap) (o : Obj) : Obj :=
  c.members.foldl (fun acc kv => delSlot acc kv.1) o

/-- Source `tc.is_introspective.members.collides_with` (typeclass.js lines 124-127):
true iff some member name reads back non-`undefined` on the object. -/
def collides_with (c : Cap) (o : Obj) : Bool :=
  c.members.any fun kv => decide (getSlot o kv.1 ≠ JVal.undefined)

/-- Source `tc.is_introspective.members.implemented_on` (typeclass.js lines 129-140):
false as soon as some member name reads back `undefined`; otherwise true iff
the member table is non-empty (the empty typeclass is implemented on
nothing). -/
def implemented_on (c : Cap) (o : Obj) : Bool :=
  !c.members.isEmpty && c.members.all fun kv => decide (getSlot o kv.1 ≠ JVal.undefined)

/-- The hook body produced by `tc.requires` (typeclass.js lines 178-188):
signal MissingDependency if any listed capability is not implemented on the
object; the object is left untouched. -/
def requires (deps : List Cap) : Obj → Obj × Option Err := fun o =>
  if deps.all fun d => implemented_on d o then (o, none) else (o, some .missingDep)

/-- The collision check shared by `tc.detect_collisions` (typeclass.js lines
171-176) and the checker that `tc.detects_collisions` registers (lines
264-266): signal Collision iff `collides_with` holds; no mutation. -/
def detect_collisions (c : Cap) (o : Obj) : Obj × Option Err :=
  if collides_with c o then (o, some .collision) else (o, none)

/-- Run a hook list in order, stopping at the first signalled error; the trace
records each hook that fired (including the one that threw). -/
def runHooks : List Hook → Obj → RunRes
  | [], o => ⟨o, [], none⟩
  | h :: t, o =>
    match h.2 o with
    | (o', some e) => ⟨o', [Ev.hook h.1], some e⟩
    | (o', none) =>
      let r := runHooks t o'
      ⟨r.obj, Ev.hook h.1 :: r.trace, r.err⟩

/-- Source `tc.addable_with_hooks.members.add` for one object (typeclass.js lines
84-90): before-add hooks in registration order, then `attach`, then after-add
hooks in registration order; a thrown error aborts the rest of the pipeline
but keeps all mutations made so far. -/
def add (c : Cap) (o : Obj) : RunRes :=
  let b := runHooks c.before_add_hooks o
  match b.err with
  | some e => ⟨b.obj, b.trace, some e⟩
  | none =>
    let o2 := attach c b.obj
    let a := runHooks c.after_add_hooks o2
    ⟨a.obj, b.trace ++ Ev.attach :: a.trace, a.err⟩

/-- Source `tc.addable_with_hooks.members.remove` for one object (typeclass.js lines
92-97): before-remove hooks, then `detach`, then after-remove hooks. -/
def remove (c : Cap) (o : Obj) : RunRes :=
  let b := runHooks c.before_remove_hooks o
  match b.err with
  | some e => ⟨b.obj, b.trace, some e⟩
  | none =>
    let o2 := detach c b.obj
    let a := runHooks c.after_remove_hooks o2
    ⟨a.obj, b.trace ++ Ev.detach :: a.trace, a.err⟩

/-- The hook body produced by `tc.brings` (typeclass.js lines 190-197): for
each listed capability not yet implemented on the object, compose it via the
full `add` pipeline; the first error signalled by a nested add propagates. -/
def brings (deps : List Cap) : Obj → Obj × Option Err := fun o =>
  deps.foldl
    (fun acc d =>
      match acc with
      | (o', some e) => (o', some e)
      | (o', none) =>
        if implemented_on d o' then (o', none)
        else
          let r := add d o'
          (r.obj, r.err))
    (o, none)

/-- Source `tc.typeclass.members.create` with an explicit object (typeclass.js lines
224-232): box the object (identity for genuine objects) and run the `add`
pipeline on it; the composed object is returned. -/
def create (c : Cap) (o : Obj) : RunRes := add c o

/-- The constructor-callable produced by `tc.class_generator` (typeclass.js
lines 282-294): invoke the base to obtain a starting instance (the default
base is `(base_class || Object)`), store the arguments bag on it under the
slot name `constructor_args`, then compose the associated capability via
`create` and return the finished instance. -/
def class_generator_call (base : JVal → Obj) (c : Cap) (args : JVal) : RunRes :=
  create c (setSlot (base args) "constructor_args" args)

/-- A hook is pure when it neither mutates the object nor signals. -/
def pureHook (h : Hook) : Prop := ∀ x : Obj, h.2 x = (x, none)

theorem runHooks_pure (hs : List Hook) (o : Obj)
    (hp : ∀ h ∈ hs, pureHook h) :
    runHooks hs o = ⟨o, hs.map (fun h => Ev.hook h.1), none⟩ := by
  induction hs generalizing o with
  | nil => rfl
  | cons h t ih =>
    have h1 : h.2 o = (o, none) := hp h (by simp) o
    simp [runHooks, h1, ih o fun h' hm => hp h' (by simp [hm])]

theorem runHooks_err_none_trace (hs : List Hook) (o : Obj)
    (he : (runHooks hs o).err = none) :
    (runHooks hs o).trace = hs.map (fun h => Ev.hook h.1) := by
  induction hs generalizing o with
  | nil => rfl
  | cons h t ih =>
    rcases hh : h.2 o with ⟨o', eo⟩
    cases eo with
    | some e => simp [runHooks, hh] at he
    | none =>
      simp [runHooks, hh] at he ⊢
      exact ih o' he

theorem runHooks_append_err (xs ys : List Hook) (o : Obj) (e : Err)
    (he : (runHooks xs o).err = some e) :
    (runHooks (xs ++ ys) o).obj = (runHooks xs o).obj ∧
    (runHooks (xs ++ ys) o).trace = (runHooks xs o).trace ∧
    (runHooks (xs ++ ys) o).err = (runHooks xs o).err := by
  induction xs generalizing o with
  | nil => simp [runHooks] at he
  | cons h t ih =>
    rcases hh : h.2 o with ⟨o', eo⟩
    cases eo with
    | some e' => simp [runHooks, hh]
    | none =>
      simp [runHooks, hh] at he ⊢
      exact ih o' he

theorem runHooks_append_none (xs ys : List Hook) (o : Obj)
    (he : (runHooks xs o).err = none) :
    (runHooks (xs ++ ys) o).obj = (runHooks ys (runHooks xs o).obj).obj ∧
    (runHooks (xs ++ ys) o).trace =
      (runHooks xs o).trace ++ (runHooks ys (runHooks xs o).obj).trace ∧
    (runHooks (xs ++ ys) o).err = (runHooks ys (runHooks xs o).obj).err := by
  induction xs generalizing o with
  | nil => simp [runHooks]
  | cons h t ih =>
    rcases hh : h.2 o with ⟨o', eo⟩
    cases eo with
    | some e => simp [runHooks, hh] at he
    | none =>
      simp [runHooks, hh] at he ⊢
      exact ih o' he

theorem getSlot_setSlot_self (o : Obj) (k : String) (v : JVal) :
    getSlot (setSlot o k v) k = v := by
  induction o with
  | nil => simp [setSlot, getSlot]
  | cons p t ih =>
    by_cases hp : p.1 = k
    · simp [setSlot, getSlot, hp]
    · simp [setSlot, getSlot, hp, ih]

theorem getSlot_setSlot_ne (o : Obj) (k k' : String) (v : JVal) (h : k' ≠ k) :
    getSlot (setSlot o k v) k' = getSlot o k' := by
  induction o with
  | nil => simp [setSlot, getSlot, Ne.symm h]
  | cons p t ih =>
    by_cases hp : p.1 = k
    · simp [setSlot, getSlot, hp, Ne.symm h, h]
    · by_cases hp' : p.1 = k'
      · simp [setSlot, getSlot, hp, hp', h]
      · simp [setSlot, getSlot, hp, hp', ih]

/-- The member-install fold underlying `tc.attach`, exposed for lemmas. -/
def attachFold (ms : List (String × JVal)) (o : Obj) : Obj :=
  ms.foldl (fun acc kv => setSlot acc kv.1 (boundVal kv.2)) o

theorem attach_eq_attachFold (c : Cap) (o : Obj) :
    attach c o = attachFold c.members o := rfl

theorem attachFold_cons (kv : String × JVal) (t : List (String × JVal)) (o : Obj) :
    attachFold (kv :: t) o = attachFold t (setSlot o kv.1 (boundVal kv.2)) := rfl

theorem getSlot_attachFold_not_mem (ms : List (String × JVal)) (o : Obj) (k : String)
    (h : ∀ kv ∈ ms, kv.1 ≠ k) :
    getSlot (attachFold ms o) k = getSlot o k := by
  induction ms generalizing o with
  | nil => rfl
  | cons kv t ih =>
    have hk : kv.1 ≠ k := h kv (by simp)
    have ht : ∀ kv' ∈ t, kv'.1 ≠ k := fun kv' hm => h kv' (by simp [hm])
    rw [attachFold_cons, ih _ ht, getSlot_setSlot_ne _ _ _ _ (Ne.symm hk)]

theorem getSlot_attachFold_mem (ms : List (String × JVal)) (o : Obj)
    (k : String) (v : JVal) (hnd : (ms.map Prod.fst).Nodup) (hm : (k, v) ∈ ms) :
    getSlot (attachFold ms o) k = boundVal v := by
  induction ms generalizing o with
  | nil => simp at hm
  | cons kv t ih =>
    simp only [List.map_cons, List.nodup_cons] at hnd
    rcases List.mem_cons.mp hm with hh | ht
    · subst hh
      have hnk : ∀ kv' ∈ t, kv'.1 ≠ k := by
        intro kv' hmem hkeq
        have h1 : kv'.1 ∈ t.map Prod.fst := List.mem_map_of_mem Prod.fst hmem
        rw [hkeq] at h1
        exact hnd.1 h1
      rw [attachFold_cons, getSlot_attachFold_not_mem t _ k hnk, getSlot_setSlot_self]
    · rw [attachFold_cons]
      exact ih _ hnd.2 ht

/-- The member-delete fold underlying `tc.detach`, exposed for lemmas. -/
def detachFold (ms : List (String × JVal)) (o : Obj) : Obj :=
  ms.foldl (fun acc kv => delSlot acc kv.1) o

theorem detach_eq_detachFold (c : Cap) (o : Obj) :
    detach c o = detachFold c.members o := rfl

theorem detachFold_cons (kv : String × JVal) (t : List (String × JVal)) (x : Obj) :
    detachFold (kv :: t) x = detachFold t (delSlot x kv.1) := rfl

theorem detachFold_eq_filter (ms : List (String × JVal)) (x : Obj) :
    detachFold ms x =
      x.filter (fun p => !(ms.any fun kv => decide (kv.1 = p.1))) := by
  induction ms generalizing x with
  | nil => simp [detachFold]
  | cons kv t ih =>
    rw [detachFold_cons, ih, delSlot, List.filter_filter]
    apply List.filter_congr
    intro p _
    by_cases h1 : kv.1 = p.1
    · simp [h1]
    · have h2 : ¬p.1 = kv.1 := fun hq => h1 hq.symm
      simp [h1, h2]

theorem filter_setSlot (x : Obj) (k : String) (v : JVal) (q : String → Bool)
    (hk : q k = false) :
    (setSlot x k v).filter (fun p => q p.1) = x.filter (fun p => q p.1) := by
  induction x with
  | nil => simp [setSlot, hk]
  | cons p t ih =>
    by_cases hp : p.1 = k
    · simp [setSlot, hp, hk]
    · simp only [setSlot, hp, if_false, List.filter_cons]
      rw [ih]

theorem filter_attachFold (ms : List (String × JVal)) (x : Obj) (q : String → Bool)
    (h : ∀ kv ∈ ms, q kv.1 = false) :
    (attachFold ms x).filter (fun p => q p.1) = x.filter (fun p => q p.1) := by
  induction ms generalizing x with
  | nil => rfl
  | cons kv t ih =>
    rw [attachFold_cons, ih _ fun kv' hm => h kv' (by simp [hm]),
      filter_setSlot _ _ _ _ (h kv (by simp))]

theorem detach_attach (c : Cap) (o : Obj)
    (hdisj : ∀ kv ∈ c.members, hasKey o kv.1 = false) :
    detach c (attach c o) = o := by
  have hq : ∀ kv ∈ c.members,
      (fun s => !(c.members.any fun kv' => decide (kv'.1 = s))) kv.1 = false := by
    intro kv hkv
    have h0 : c.members.any (fun kv' => decide (kv'.1 = kv.1)) = true :=
      List.any_eq_true.mpr ⟨kv, hkv, by simp⟩
    simp [h0]
  have h1 : detach c (attach c o) =
      List.filter (fun p => !(c.members.any fun kv => decide (kv.1 = p.1)))
        (attachFold c.members o) := by
    rw [detach_eq_detachFold, attach_eq_attachFold, detachFold_eq_filter]
  have h2 := filter_attachFold c.members o
    (fun s => !(c.members.any fun kv' => decide (kv'.1 = s))) hq
  have h3 : List.filter (fun p => !(c.members.any fun kv => decide (kv.1 = p.1))) o
      = o := by
    apply List.filter_eq_self.mpr
    intro p hp
    have h0 : c.members.any (fun kv => decide (kv.1 = p.1)) = false := by
      apply List.any_eq_false.mpr
      intro kv hkv hdec
      simp only [decide_eq_true_eq] at hdec
      have hh := hdisj kv hkv
      simp only [hasKey, List.any_eq_false, decide_eq_true_eq] at hh
      exact hh p hp hdec.symm
    simp [h0]
  exact h1.trans (h2.trans h3)

theorem add_pure (c : Cap) (o : Obj)
    (hb : ∀ h ∈ c.before_add_hooks, pureHook h)
    (ha : ∀ h ∈ c.after_add_hooks, pureHook h) :
    add c o =
      ⟨attach c o,
       c.before_add_hooks.map (fun h => Ev.hook h.1) ++
         Ev.attach :: c.after_add_hooks.map (fun h => Ev.hook h.1),
       none⟩ := by
  simp [add, runHooks_pure _ _ hb, runHooks_pure _ _ ha]

theorem remove_pure (c : Cap) (o : Obj)
    (hb : ∀ h ∈ c.before_remove_hooks, pureHook h)
    (ha : ∀ h ∈ c.after_remove_hooks, pureHook h) :
    remove c o =
      ⟨detach c o,
       c.before_remove_hooks.map (fun h => Ev.hook h.1) ++
         Ev.detach :: c.after_remove_hooks.map (fun h => Ev.hook h.1),
       none⟩ := by
  simp [remove, runHooks_pure _ _ hb, runHooks_pure _ _ ha]

end tc

namespace rtti

/-!
The RTTI tracker (rtti.js lines 46-52) keeps a hash `present_typeclasses`
mapping a capability's `unique_id` to the capability; `added` stores under the
id, `removed` deletes the key, and `is_present` tests the key against
`undefined`.  Since the stored value is the capability itself (never
`undefined`), the hash is faithfully modelled by its key set, here the list of
ids present.  An RTTI-enabled capability (rtti.js lines 34-40) wires `added`
as an add-constructor (after-add hook) and `removed` as a remove-destructor
(before-remove hook), so each completed `add`/`remove` call on the pair
(capability, object) performs exactly one tracker operation keyed by the
capability's unique id; presence is stored state, not a member scan.
-/

/-- Source `rtti.tracker`'s `added` member: `present_typeclasses[t.unique_id] = t`.
On the key set this inserts the id if it is absent. -/
def added (st : List String) (id : String) : List String :=
  if id ∈ st then st else st ++ [id]

/-- Source `rtti.tracker`'s `removed` member: `delete present_typeclasses[t.unique_id]`. -/
def removed (st : List String) (id : String) : List String :=
  st.filter fun s => decide (s ≠ id)

/-- Source `rtti.tracker`'s `is_present` member:
`present_typeclasses[t.unique_id] !== undefined`. -/
def is_present (st : List String) (id : String) : Bool :=
  decide (id ∈ st)

/-- One completed engine call on a tracked object: `add` or `remove` of the
capability with the given unique id. -/
inductive Op where
  | add (id : String)
  | remove (id : String)
deriving DecidableEq

/-- The unique id the operation acts on. -/
def Op.opId : Op → String
  | .add i => i
  | .remove i => i

/-- Whether the operation is an add. -/
def Op.isAdd : Op → Bool
  | .add _ => true
  | .remove _ => false

/-- Tracker update performed by one completed add/remove call: the wired
constructor calls `added`, the wired destructor calls `removed`. -/
def applyOp (st : List String) : Op → List String
  | .add id => added st id
  | .remove id => removed st id

/-- Tracker state after a finite call sequence, starting from the fresh
tracker created by `rtti.tracked`'s constructor (empty hash). -/
def applyOps (ops : List Op) : List String :=
  ops.foldl applyOp []

theorem is_present_applyOp (st : List String) (op : Op) (id : String) :
    is_present (applyOp st op) id =
      if op.opId = id then op.isAdd else is_present st id := by
  cases op with
  | add i =>
    by_cases h : i = id
    · subst h
      by_cases hm : i ∈ st <;> simp [applyOp, added, is_present, Op.opId, Op.isAdd, hm]
    · by_cases hm : i ∈ st <;>
        simp [applyOp, added, is_present, Op.opId, Op.isAdd, hm, h, Ne.symm h]
  | remove i =>
    by_cases h : i = id
    · subst h
      simp [applyOp, removed, is_present, Op.opId, Op.isAdd, List.mem_filter]
    · simp [applyOp, removed, is_present, Op.opId, Op.isAdd, h, List.mem_filter,
        Ne.symm h]

theorem is_present_foldl (ops : List Op) (st : List String) (id : String) :
    is_present (ops.foldl applyOp st) id =
      ops.foldl (fun b op => if op.opId = id then op.isAdd else b)
        (is_present st id) := by
  induction ops generalizing st with
  | nil => rfl
  | cons op rest ih =>
    rw [List.foldl_cons, List.foldl_cons, ih, is_present_applyOp]

theorem last_tracked_iff (id : String) :
    ∀ (ops : List Op) (b : Bool),
      ops.foldl (fun b op => if op.opId = id then op.isAdd else b) b = true ↔
        ((∃ pre post, ops = pre ++ Op.add id :: post ∧ Op.remove id ∉ post) ∨
         (b = true ∧ ∀ op ∈ ops, op.opId ≠ id)) := by
  intro ops
  induction ops with
  | nil =>
    intro b
    simp
  | cons op rest ih =>
    intro b
    rw [List.foldl_cons, ih]
    constructor
    · rintro (⟨pre, post, hsplit, hpost⟩ | ⟨hb, hnone⟩)
      · exact Or.inl ⟨op :: pre, post, by rw [hsplit, List.cons_append], hpost⟩
      · by_cases hop : op.opId = id
        · rw [if_pos hop] at hb
          cases op with
          | add i =>
            refine Or.inl ⟨[], rest, ?_, ?_⟩
            · simp only [Op.opId] at hop
              rw [hop, List.nil_append]
            · intro hmem
              exact (hnone _ hmem) rfl
          | remove i => simp [Op.isAdd] at hb
        · rw [if_neg hop] at hb
          exact Or.inr ⟨hb, by
            intro op' hmem
            rcases List.mem_cons.mp hmem with h | h
            · rw [h]; exact hop
            · exact hnone op' h⟩
    · rintro (⟨pre, post, hsplit, hpost⟩ | ⟨hb, hnone⟩)
      · cases pre with
        | nil =>
          simp only [List.nil_append, List.cons.injEq] at hsplit
          rw [hsplit.1]
          simp only [Op.opId, if_pos rfl, Op.isAdd]
          by_cases hmem : Op.add id ∈ rest
          · obtain ⟨s, t, hst⟩ := List.append_of_mem hmem
            refine Or.inl ⟨s, t, hst, fun hmt => ?_⟩
            rw [← hsplit.2] at hpost
            exact hpost (hst ▸ List.mem_append_right s (List.mem_cons_of_mem _ hmt))
          · refine Or.inr ⟨rfl, ?_⟩
            intro op' hmem' hid
            cases op' with
            | add i =>
              simp only [Op.opId] at hid
              exact hmem (hid ▸ hmem')
            | remove i =>
              simp only [Op.opId] at hid
              rw [← hsplit.2] at hpost
              exact hpost (hid ▸ hmem')
        | cons p0 pre' =>
          simp only [List.cons_append, List.cons.injEq] at hsplit
          exact Or.inl ⟨pre', post, hsplit.2, hpost⟩
      · have hop : op.opId ≠ id := hnone op (by simp)
        rw [if_neg hop]
        exact Or.inr ⟨hb, fun op' hm => hnone op' (by simp [hm])⟩

end rtti

namespace mn

/-!
The computation combinator layer (monad.js).  Each combinator is a capability
whose `mbind` runs on an instance with `this` bound to the instance and with
the continuation's `this` pre-bound to the combinator's `mreturn`.  We embed
each combinator's instance state and the bodies of `mbind` / `mreturn`
directly; the continuation is an explicit argument.
-/

/-- One level of `Array.prototype.concat` flattening, as used by
`result.concat(f(...))` in `mn.array_monad.mbind` (monad.js line 46): an array
argument contributes its elements, a non-array argument contributes itself. -/
def concat_arg : JVal → List JVal
  | .arr es => es
  | .atom a => [.atom a]

/-- Source `mn.array_monad`'s `mbind` (monad.js lines 43-48): apply the continuation
to every element in order, concatenating the results with one level of
flattening. -/
def array_mbind (self : List JVal) (f : JVal → JVal) : List JVal :=
  self.foldl (fun acc x => acc ++ concat_arg (f x)) []

/-- Source `mn.array_monad`'s `mreturn` (monad.js lines 50-52): wrap the value as the
one-element sequence `[x]`. -/
def array_mreturn (x : JVal) : JVal := .arr [x]

/-- The continuation's multiplication `x * 10` from the spec's sequence
example, on numeric values. -/
def ten_times : JVal → JVal
  | .atom (.num n) => .atom (.num (n * 10))
  | _ => .undefined

/-- An optional (maybe) instance: its `value` slot; the absent instance is the
one whose value is `undefined` (monad.js lines 55-66 test
`this.value !== undefined`). -/
structure MaybeInst where
  value : JVal
deriving DecidableEq

/-- The absent optional instance (`value === undefined`). -/
def nothing : MaybeInst := ⟨JVal.undefined⟩

/-- Source `mn.maybe_monad`'s `mbind` (monad.js lines 56-59): if the value is not
`undefined`, invoke the continuation on it and return its result unchanged;
otherwise return the instance itself without invoking the continuation. -/
def maybe_mbind (m : MaybeInst) (f : JVal → MaybeInst) : MaybeInst :=
  if m.value ≠ JVal.undefined then f m.value else m

/-- Source `mn.maybe_monad`'s `mreturn` (monad.js lines 61-65): a fresh instance
whose value is `x`. -/
def maybe_mreturn (x : JVal) : MaybeInst := ⟨x⟩

/-- Source `mn.maybe_monad`'s `extract` member (monad.js line 66): the underlying
value, `undefined` for the absent instance. -/
def maybe_extract (m : MaybeInst) : JVal := m.value

/-- A fallible (error) instance: `value` and `error` slots; a fresh instance
has both `undefined` (monad.js lines 68-86). -/
structure ErrorInst where
  value : JVal
  error : JVal
deriving DecidableEq

/-- Source `mn.error_monad`'s `mbind` (monad.js lines 69-78): if `this.error` is
truthy, short-circuit returning the same instance; otherwise invoke the
continuation inside a fault boundary — a fault is caught and becomes a fresh
instance whose `error` is the fault (and whose `value` was never set). -/
def error_mbind (m : ErrorInst) (f : JVal → Except JVal ErrorInst) : ErrorInst :=
  if truthy m.error then m
  else
    match f m.value with
    | .ok r => r
    | .error e => ⟨JVal.undefined, e⟩

/-- Source `mn.error_monad`'s `mreturn` (monad.js lines 80-84): a fresh instance with
the given value and no error. -/
def error_mreturn (x : JVal) : ErrorInst := ⟨x, JVal.undefined⟩

/-- Source `mn.error_monad`'s `get_error` member (monad.js line 86). -/
def get_error (m : ErrorInst) : JVal := m.error

/-- Source `mn.error_monad`'s `extract` member (monad.js line 85). -/
def error_extract (m : ErrorInst) : JVal := m.value

theorem foldl_append_map (g : JVal → JVal) :
    ∀ (l : List JVal) (a : List JVal),
      l.foldl (fun acc x => acc ++ [g x]) a = a ++ l.map g := by
  intro l
  induction l with
  | nil => simp
  | cons x t ih =>
    intro a
    simp only [List.foldl_cons, List.map_cons, ih]
    simp

theorem array_mbind_mreturn (l : List JVal) (g : JVal → JVal) :
    array_mbind l (fun x => array_mreturn (g x)) = l.map g := by
  have h : (fun (acc : List JVal) (x : JVal) => acc ++ concat_arg (array_mreturn (g x)))
      = fun acc x => acc ++ [g x] := by
    funext acc x
    rfl
  rw [array_mbind, h]
  simpa using foldl_append_map g l []

end mn

/-!
Concrete capabilities and objects used in the claim theorems, their
counterexamples and witnesses.
-/

/-- A plain capability defining the single member `m` (no hooks). -/
def capA : Cap := Cap.mk [("m", JVal.fn 1)] [] [] [] []

/-- Member table of the collision-detecting capability `capB`. -/
def capB_members : List (String × JVal) := [("m", JVal.fn 2)]

/-- A capability defining `m`, with one effectful before-add hook (setting the
slot `h`, standing for any hook side effect) and the collision checker
installed exactly where `tc.detects_collisions` puts it in the source: in the
after-add hooks, because `add_constructor` pushes onto `after_add_hooks`
(typeclass.js lines 213 and 263-266). -/
def capB : Cap :=
  Cap.mk capB_members
    [(5, fun o => (setSlot o "h" (JVal.num 1), none))]
    [(6, fun o => tc.detect_collisions (Cap.mk capB_members [] [] [] []) o)]
    [] []

/-- A dependency capability defining the single member `d`. -/
def capD : Cap := Cap.mk [("d", JVal.fn 3)] [] [] [] []

/-- A capability on which `brings(capD)` and then `requires(capD)` have been
registered, in that order, as `tc.typeclass.members.brings`/`requires` would
register them (typeclass.js lines 211-212). -/
def capC2 : Cap :=
  Cap.mk [("m", JVal.fn 4)] [(0, tc.brings [capD]), (1, tc.requires [capD])] [] [] []

/-- A capability on which only `requires(capD)` has been registered. -/
def capC2w : Cap :=
  Cap.mk [("m", JVal.fn 4)] [(1, tc.requires [capD])] [] [] []

/-- A hook that does nothing and signals nothing. -/
def idHook (n : Nat) : Hook := (n, fun o => (o, none))

/-- A capability with two before-add, one after-add, one before-remove and one
after-remove hook, for exercising the pipeline order. -/
def capC3 : Cap :=
  Cap.mk [("x", JVal.num 1)] [idHook 1, idHook 2] [idHook 3] [idHook 4] [idHook 5]

/-- A hook-free capability defining the single member `m`. -/
def capC5 : Cap := Cap.mk [("m", JVal.fn 6)] [] [] [] []

/-- An object that already owns the key `m` before composition. -/
def objC5 : Obj := [("m", JVal.num 1)]

/-- An object whose own keys are disjoint from `capC5`'s member names. -/
def objC5w : Obj := [("z", JVal.num 2)]

/-- The sequence `[1, 2, 3]` from the spec's sequence-monad example. -/
def seq123 : List JVal := [JVal.num 1, JVal.num 2, JVal.num 3]

/-- The example continuation `f(x) = return([x, x*10])`, with `return` the
pre-bound `mreturn` of the sequence combinator. -/
def exampleCont : JVal → JVal := fun x => mn.array_mreturn (JVal.arr [x, mn.ten_times x])

/-- The member table that `mn.maybe_monad` ends up with: `mbind` and
`mreturn` added by `mn.monadic_typeclass`'s constructor (monad.js lines
30-31) and `extract` added at line 66; there is no other `add_member` call on
it. -/
def maybe_cap : Cap :=
  Cap.mk [("mbind", JVal.fn 20), ("mreturn", JVal.fn 21), ("extract", JVal.fn 22)] [] [] [] []

/-- The failed fallible instance produced by a continuation that raises the
falsy fault `0` on a success instance. -/
def failedZero : mn.ErrorInst :=
  mn.error_mbind (mn.error_mreturn (JVal.num 1)) (fun _ => Except.error (JVal.num 0))

/-- A base factory performing bare object allocation. -/
def base0 : JVal → Obj := fun _ => []

/-- A hook-free capability with one member, composed by the factory. -/
def capC9 : Cap := Cap.mk [("speak", JVal.fn 30)] [] [] [] []

/-- A capability with an `undefined`-valued member `u`. -/
def capC10 : Cap := Cap.mk [("u", JVal.undefined)] [] [] [] []

/-!
Claim theorems.
-/

/-- Claim C1 (code evaluation): in the source, the collision checker that
`tc.detects_collisions` registers goes through `add_constructor`, which pushes
onto `after_add_hooks` (typeclass.js lines 213 and 264), so it fires *after*
the member-install step.  Evaluating the engine at the claim's scenario: after
`add(capA, {})` succeeds, `add(capB, ...)` on the result does signal Collision,
but only after `capB`'s member `m` has already been installed (it reads back as
`capB`'s bound function) and with the earlier hook's effect (`h`) kept, and the
same `add(capB, {})` on a fresh object also signals Collision even though no
member name pre-existed — because the post-install check sees the capability's
own freshly installed members. -/
theorem C1_collision_check_fires_after_install :
    (tc.add capA []).err = none ∧
    (tc.add capB (tc.add capA []).obj).err = some Err.collision ∧
    getSlot (tc.add capB (tc.add capA []).obj).obj "m" = JVal.bound 2 ∧
    getSlot (tc.add capB (tc.add capA []).obj).obj "h" = JVal.num 1 ∧
    (tc.add capB []).err = some Err.collision ∧
    getSlot (tc.add capB []).obj "m" = JVal.bound 2 := by
  decide

/-- Claim C5 (counterexample): for a capability with member `m` and an object
that already owns the key `m`, the round trip `remove(C, add(C, obj))` does
not restore the own-key set: `m` was an own key before and is gone after,
because `attach` overwrote the slot and `detach` deleted it. -/
theorem C5_roundtrip_loses_preexisting_key :
    "m" ∈ keysOf objC5 ∧
    "m" ∉ keysOf (tc.remove capC5 (tc.add capC5 objC5).obj).obj := by
  decide

/-- Claim C5 (amended): for a capability whose hooks are all side-effect-free
and an object none of whose own keys is a member name of the capability, the
round trip `remove(C, add(C, obj))` restores the object exactly, and in
particular restores its own-key set to the pre-add snapshot: `detach` removes
exactly the slot names `attach` added. -/
theorem C5_roundtrip_restores_keys (c : Cap) (o : Obj)
    (hpure : ∀ h ∈ c.before_add_hooks ++ c.after_add_hooks ++
      c.before_remove_hooks ++ c.after_remove_hooks, tc.pureHook h)
    (hdisj : ∀ kv ∈ c.members, hasKey o kv.1 = false) :
    (tc.remove c (tc.add c o).obj).obj = o ∧
    keysOf (tc.remove c (tc.add c o).obj).obj = keysOf o := by
  have hba : ∀ h ∈ c.before_add_hooks, tc.pureHook h :=
    fun h hm => hpure h (by simp [hm])
  have haa : ∀ h ∈ c.after_add_hooks, tc.pureHook h :=
    fun h hm => hpure h (by simp [hm])
  have hbr : ∀ h ∈ c.before_remove_hooks, tc.pureHook h :=
    fun h hm => hpure h (by simp [hm])
  have har : ∀ h ∈ c.after_remove_hooks, tc.pureHook h :=
    fun h hm => hpure h (by simp [hm])
  have h1 : (tc.add c o).obj = tc.attach c o := by
    rw [tc.add_pure c o hba haa]
  have h2 : (tc.remove c (tc.attach c o)).obj = tc.detach c (tc.attach c o) := by
    rw [tc.remove_pure c _ hbr har]
  have h3 : tc.detach c (tc.attach c o) = o := tc.detach_attach c o hdisj
  refine ⟨?_, ?_⟩
  · rw [h1, h2, h3]
  · rw [h1, h2, h3]

/-- Claim C5 (witness): the amended round-trip theorem applied to the
hook-free capability `capC5` and the disjoint object `objC5w`. -/
theorem C5_roundtrip_restores_keys_witness :
    (tc.remove capC5 (tc.add capC5 objC5w).obj).obj = objC5w :=
  (C5_roundtrip_restores_keys capC5 objC5w (by simp [capC5]) (by decide)).1

/-- Claim C6 (counterexample): `bind` over the sequence `[1,2,3]` with the
continuation `f(x) = return([x, x*10])` does not yield `[1,10,2,20,3,30]`:
since `return` wraps its argument as a one-element sequence, each call
contributes the single element `[x, x*10]`, and one level of `concat`
flattening yields `[[1,10],[2,20],[3,30]]`. -/
theorem C6_example_is_nested :
    mn.array_mbind seq123 exampleCont =
      [JVal.arr [JVal.num 1, JVal.num 10], JVal.arr [JVal.num 2, JVal.num 20],
       JVal.arr [JVal.num 3, JVal.num 30]] ∧
    mn.array_mbind seq123 exampleCont ≠
      [JVal.num 1, JVal.num 10, JVal.num 2, JVal.num 20, JVal.num 3,
       JVal.num 30] := by
  decide

/-- Claim C6 (amended): `bind(f)` applies `f` to every element in element
order and concatenates the results with one level of flattening, and
`return(x)` wraps `x` as a one-element sequence; consequently binding any
continuation of the shape `f(x) = return(g(x))` maps `g` over the sequence,
the spec's example continuation `f(x) = return([x, x*10])` yields
`[[1,10],[2,20],[3,30]]`, and the flat `[1,10,2,20,3,30]` is produced by the
continuation that yields the plain array `[x, x*10]` without wrapping it. -/
theorem C6_sequence_bind_flattening :
    (∀ (l : List JVal) (g : JVal → JVal),
      mn.array_mbind l (fun x => mn.array_mreturn (g x)) = l.map g) ∧
    mn.array_mbind seq123 exampleCont =
      [JVal.arr [JVal.num 1, JVal.num 10], JVal.arr [JVal.num 2, JVal.num 20],
       JVal.arr [JVal.num 3, JVal.num 30]] ∧
    mn.array_mbind seq123 (fun x => JVal.arr [x, mn.ten_times x]) =
      [JVal.num 1, JVal.num 10, JVal.num 2, JVal.num 20, JVal.num 3,
       JVal.num 30] ∧
    (∀ x, mn.array_mreturn x = JVal.arr [x]) := by
  refine ⟨mn.array_mbind_mreturn, by decide, by decide, fun x => rfl⟩

/-- Claim C7 (counterexample): the optional combinator's member table consists
of exactly `mbind`, `mreturn` and `extract` (monad.js lines 30-31 and 66);
there is no `is_nothing` member, so an instance composed from it does not
expose `is_nothing` (the slot reads back `undefined`) even though it does
expose `extract`. -/
theorem C7_no_is_nothing_member :
    "is_nothing" ∉ (maybe_cap.members.map Prod.fst) ∧
    getSlot (tc.attach maybe_cap []) "is_nothing" = JVal.undefined ∧
    getSlot (tc.attach maybe_cap []) "extract" = JVal.bound 22 := by
  decide

/-- Claim C7 (amended): on the absent optional instance, `bind(f)` returns the
absent instance itself, unchanged, for every continuation `f` (so `f` is never
invoked); instances expose `extract()`, which returns the underlying value —
`undefined` for the absent instance and `x` for `return(x)`.  (The code has no
`is_nothing` member.) -/
theorem C7_optional_short_circuit :
    (∀ f : JVal → mn.MaybeInst, mn.maybe_mbind mn.nothing f = mn.nothing) ∧
    mn.maybe_extract mn.nothing = JVal.undefined ∧
    (∀ x, mn.maybe_extract (mn.maybe_mreturn x) = x) := by
  refine ⟨fun f => ?_, rfl, fun x => rfl⟩
  simp [mn.maybe_mbind, mn.nothing]

/-- Claim C8 (counterexample): fault capture stores the fault verbatim, but
the short-circuit test is `if (this.error)`, i.e. truthiness.  A continuation
that raises the falsy fault `0` produces an instance whose `get_error()` is
`0`, yet a further `bind(g)` on that failed instance does invoke `g` and
returns `g`'s result instead of the same failed instance. -/
theorem C8_falsy_fault_not_short_circuited :
    mn.get_error failedZero = JVal.num 0 ∧
    mn.error_mbind failedZero
        (fun _ => Except.ok (mn.error_mreturn (JVal.num 99))) =
      mn.error_mreturn (JVal.num 99) ∧
    mn.error_mbind failedZero
        (fun _ => Except.ok (mn.error_mreturn (JVal.num 99))) ≠
      failedZero := by
  decide

/-- Claim C8 (amended): on a success instance (error falsy), a continuation
that raises fault `E` makes `bind` return a fresh failed instance whose value
slot is unset and whose `get_error()` is exactly `E` — the fault never
propagates past the combinator boundary; and on any instance whose error is
*truthy*, every further `bind(g)` returns the same instance unchanged without
invoking `g`. -/
theorem C8_fault_capture (s : mn.ErrorInst) (f : JVal → Except JVal mn.ErrorInst)
    (E : JVal) :
    (truthy s.error = false → f s.value = Except.error E →
      mn.error_mbind s f = mn.ErrorInst.mk JVal.undefined E ∧
      mn.get_error (mn.error_mbind s f) = E) ∧
    (truthy s.error = true → ∀ g, mn.error_mbind s g = s) := by
  constructor
  · intro hs hf
    constructor
    · simp [mn.error_mbind, hs, hf]
    · simp [mn.error_mbind, mn.get_error, hs, hf]
  · intro hs g
    simp [mn.error_mbind, hs]

/-- Claim C8 (witness): fault capture at the fault `"boom"` on the success
instance `return(1)`, and short-circuiting of the resulting (truthy-error)
failed instance. -/
theorem C8_fault_capture_witness :
    mn.error_mbind (mn.error_mreturn (JVal.num 1))
        (fun _ => Except.error (JVal.str "boom")) =
      mn.ErrorInst.mk JVal.undefined (JVal.str "boom") ∧
    mn.error_mbind (mn.ErrorInst.mk JVal.undefined (JVal.str "boom"))
        (fun _ => Except.ok (mn.error_mreturn (JVal.num 5))) =
      mn.ErrorInst.mk JVal.undefined (JVal.str "boom") :=
  ⟨((C8_fault_capture (mn.error_mreturn (JVal.num 1))
      (fun _ => Except.error (JVal.str "boom")) (JVal.str "boom")).1
      (by decide) rfl).1,
   (C8_fault_capture (mn.ErrorInst.mk JVal.undefined (JVal.str "boom"))
      (fun _ => Except.ok (mn.error_mreturn (JVal.num 5))) JVal.undefined).2
      (by decide) (fun _ => Except.ok (mn.error_mreturn (JVal.num 5)))⟩

/-- Claim C2 (counterexample): `capC2` has `requires(capD)` registered, and
`capD` is not implemented on the empty object, yet `add(capC2, {})` raises
nothing and installs `capC2`'s member `m` — because the `brings(capD)` hook
registered *before* the requires hook composes `capD` first, so the
dependency check passes by the time it runs.  The claim's universal statement
therefore fails as written. -/
theorem C2_brings_defeats_requires :
    tc.implemented_on capD [] = false ∧
    (tc.add capC2 []).err = none ∧
    getSlot (tc.add capC2 []).obj "m" = JVal.bound 4 ∧
    getSlot (tc.add capC2 []).obj "d" = JVal.bound 3 := by
  decide

/-- Claim C2 (amended): if `requires(D)` is registered among C's before-add
hooks and the hooks before it complete without error, leaving an object on
which D is still not implemented, then `add(C, obj)` signals MissingDependency
from that before-add hook, the pipeline stops there (member install never
runs), and — provided the earlier hooks did not touch the slots named by C's
member table — those slots are exactly as they were before the call. -/
theorem C2_requires_blocks_add (c d : Cap) (pre post : List Hook) (j : Nat)
    (o o₁ : Obj)
    (hhooks : c.before_add_hooks = pre ++ (j, tc.requires [d]) :: post)
    (hpre_obj : (tc.runHooks pre o).obj = o₁)
    (hpre_err : (tc.runHooks pre o).err = none)
    (hdep : tc.implemented_on d o₁ = false)
    (hslots : ∀ k ∈ c.members.map Prod.fst, getSlot o₁ k = getSlot o k) :
    (tc.add c o).err = some Err.missingDep ∧
    (tc.add c o).obj = o₁ ∧
    ∀ k ∈ c.members.map Prod.fst, getSlot (tc.add c o).obj k = getSlot o k := by
  have hreq : tc.requires [d] o₁ = (o₁, some Err.missingDep) := by
    simp [tc.requires, hdep]
  have hrun : tc.runHooks ((j, tc.requires [d]) :: post) o₁ =
      ⟨o₁, [Ev.hook j], some Err.missingDep⟩ := by
    simp [tc.runHooks, hreq]
  obtain ⟨ho, ht, he⟩ :=
    tc.runHooks_append_none pre ((j, tc.requires [d]) :: post) o hpre_err
  rw [hpre_obj, hrun] at ho he
  have hb_obj : (tc.runHooks c.before_add_hooks o).obj = o₁ := by
    rw [hhooks]; exact ho
  have hb_err : (tc.runHooks c.before_add_hooks o).err = some Err.missingDep := by
    rw [hhooks]; exact he
  have hadd : tc.add c o =
      ⟨(tc.runHooks c.before_add_hooks o).obj,
       (tc.runHooks c.before_add_hooks o).trace, some Err.missingDep⟩ := by
    simp [tc.add, hb_err]
  refine ⟨by rw [hadd], by rw [hadd]; exact hb_obj, ?_⟩
  intro k hk
  rw [hadd]
  show getSlot (tc.runHooks c.before_add_hooks o).obj k = getSlot o k
  rw [hb_obj]
  exact hslots k hk

/-- Claim C2 (witness): the amended theorem applied to `capC2w`, on which only
`requires(capD)` is registered, and the empty object: the add signals
MissingDependency and leaves the object empty. -/
theorem C2_requires_blocks_add_witness :
    (tc.add capC2w []).err = some Err.missingDep ∧ (tc.add capC2w []).obj = [] := by
  have h := C2_requires_blocks_add capC2w capD [] [] 1 [] [] rfl rfl rfl
    (by decide) (by simp)
  exact ⟨h.1, h.2.1⟩

/-- Claim C3: whenever `add(C, obj)` completes without a signal, its event
trace is exactly every before-add hook in registration order, then the member
install, then every after-add hook in registration order; and whenever
`remove(C, obj)` completes without a signal, its trace is every before-remove
hook in order, then the member delete, then every after-remove hook in order.
(When a hook signals, the pipeline aborts at that point, per spec section 5.) -/
theorem C3_pipeline_order (c : Cap) (o : Obj) :
    ((tc.add c o).err = none →
      (tc.add c o).trace =
        c.before_add_hooks.map (fun h => Ev.hook h.1) ++
          Ev.attach :: c.after_add_hooks.map (fun h => Ev.hook h.1)) ∧
    ((tc.remove c o).err = none →
      (tc.remove c o).trace =
        c.before_remove_hooks.map (fun h => Ev.hook h.1) ++
          Ev.detach :: c.after_remove_hooks.map (fun h => Ev.hook h.1)) := by
  constructor
  · intro he
    rcases hbe : (tc.runHooks c.before_add_hooks o).err with _ | e
    · simp only [tc.add, hbe] at he ⊢
      rw [tc.runHooks_err_none_trace _ _ hbe, tc.runHooks_err_none_trace _ _ he]
    · simp [tc.add, hbe] at he
  · intro he
    rcases hbe : (tc.runHooks c.before_remove_hooks o).err with _ | e
    · simp only [tc.remove, hbe] at he ⊢
      rw [tc.runHooks_err_none_trace _ _ hbe, tc.runHooks_err_none_trace _ _ he]
    · simp [tc.remove, hbe] at he

/-- Claim C3 (witness): the pipeline-order theorem applied to `capC3` (two
before-add, one after-add, one before-remove, one after-remove hook) on the
empty object. -/
theorem C3_pipeline_order_witness :
    (tc.add capC3 []).trace = [Ev.hook 1, Ev.hook 2, Ev.attach, Ev.hook 3] ∧
    (tc.remove capC3 []).trace = [Ev.hook 4, Ev.detach, Ev.hook 5] := by
  constructor
  · rw [(C3_pipeline_order capC3 []).1 (by decide)]
    decide
  · rw [(C3_pipeline_order capC3 []).2 (by decide)]
    decide

/-- Claim C4: starting from a fresh tracker, after any finite sequence of
completed add/remove calls (each performing its wired tracker update keyed by
the capability's unique id), `is_present(C)` is true exactly when some add of
C occurs in the sequence with no remove of C after it — i.e. the last
operation on the pair was an add.  Presence is read from the stored
`present_typeclasses` hash, not from a member scan. -/
theorem C4_rtti_presence_iff_last_add (ops : List rtti.Op) (id : String) :
    rtti.is_present (rtti.applyOps ops) id = true ↔
      ∃ pre post, ops = pre ++ rtti.Op.add id :: post ∧
        rtti.Op.remove id ∉ post := by
  rw [rtti.applyOps, rtti.is_present_foldl, rtti.last_tracked_iff]
  have h0 : rtti.is_present [] id = false := by simp [rtti.is_present]
  rw [h0]
  simp

/-- Claim C4 (witness): the presence theorem applied to the call sequence
add, remove, add on id "1": presence holds via the final add. -/
theorem C4_rtti_presence_witness :
    rtti.is_present
      (rtti.applyOps [rtti.Op.add "1", rtti.Op.remove "1", rtti.Op.add "1"])
      "1" = true :=
  (C4_rtti_presence_iff_last_add
      [rtti.Op.add "1", rtti.Op.remove "1", rtti.Op.add "1"] "1").mpr
    ⟨[rtti.Op.add "1", rtti.Op.remove "1"], [], rfl, by decide⟩

/-- Claim C9 (counterexample): the factory stores the arguments bag under the
slot name `constructor_args` (typeclass.js line 289), not
`construction_parameters`: at the concrete call with args `7`, the
`construction_parameters` slot of the finished instance reads back
`undefined` while `constructor_args` holds `7`. -/
theorem C9_construction_parameters_not_stored :
    getSlot (tc.class_generator_call base0 capC9 (JVal.num 7)).obj
        "construction_parameters" = JVal.undefined ∧
    getSlot (tc.class_generator_call base0 capC9 (JVal.num 7)).obj
        "constructor_args" = JVal.num 7 ∧
    (JVal.num 7 : JVal) ≠ JVal.undefined := by
  decide

/-- Claim C9 (amended): calling a generated factory with an arguments bag
invokes the base to obtain a starting instance, stores the bag on it under
the slot name `constructor_args` (so constructor hooks can read named
arguments from it), composes the factory's capability via `create`, and
returns the finished instance — for any capability whose hooks are
side-effect-free and whose member table does not itself name
`constructor_args`, the finished instance is exactly the attach result over
the argument-carrying starting instance, its `constructor_args` slot still
holds the bag, and no error is signalled. -/
theorem C9_factory_pipeline (base : JVal → Obj) (c : Cap) (args : JVal)
    (hpure : ∀ h ∈ c.before_add_hooks ++ c.after_add_hooks, tc.pureHook h)
    (hname : ∀ kv ∈ c.members, kv.1 ≠ "constructor_args") :
    (tc.class_generator_call base c args).obj =
      tc.attach c (setSlot (base args) "constructor_args" args) ∧
    getSlot (tc.class_generator_call base c args).obj "constructor_args" = args ∧
    (tc.class_generator_call base c args).err = none := by
  have hba : ∀ h ∈ c.before_add_hooks, tc.pureHook h :=
    fun h hm => hpure h (by simp [hm])
  have haa : ∀ h ∈ c.after_add_hooks, tc.pureHook h :=
    fun h hm => hpure h (by simp [hm])
  have h1 : tc.class_generator_call base c args =
      tc.add c (setSlot (base args) "constructor_args" args) := rfl
  rw [h1, tc.add_pure _ _ hba haa]
  refine ⟨rfl, ?_, rfl⟩
  show getSlot (tc.attach c (setSlot (base args) "constructor_args" args))
    "constructor_args" = args
  rw [tc.attach_eq_attachFold, tc.getSlot_attachFold_not_mem _ _ _ hname,
    tc.getSlot_setSlot_self]

/-- Claim C9 (witness): the factory theorem applied to the bare-allocation
base, the one-member capability `capC9` and args `7`. -/
theorem C9_factory_pipeline_witness :
    getSlot (tc.class_generator_call base0 capC9 (JVal.num 7)).obj
        "constructor_args" = JVal.num 7 ∧
    (tc.class_generator_call base0 capC9 (JVal.num 7)).err = none :=
  ⟨(C9_factory_pipeline base0 capC9 (JVal.num 7) (by simp [capC9])
      (by decide)).2.1,
   (C9_factory_pipeline base0 capC9 (JVal.num 7) (by simp [capC9])
      (by decide)).2.2⟩

/-- A capability is not implemented on an object as soon as one of its member
names reads back `undefined` there (typeclass.js line 138). -/
theorem implemented_on_undef_false (c : Cap) (o : Obj) (kv : String × JVal)
    (hm : kv ∈ c.members) (hu : getSlot o kv.1 = JVal.undefined) :
    tc.implemented_on c o = false := by
  have hall : (c.members.all fun kv => decide (getSlot o kv.1 ≠ JVal.undefined))
      = false := by
    apply Bool.eq_false_iff.mpr
    intro hAll
    have := List.all_eq_true.mp hAll kv hm
    simp [hu] at this
  rw [tc.implemented_on, hall, Bool.and_false]

/-- Claim C10: member presence on an object is decided by comparing the slot
value against `undefined`.  If every member name of the capability reads back
`undefined` (whether the key is missing or holds `undefined`),
`collides_with` is false and the collision check does not signal; if any
member name reads back `undefined`, `implemented_on` is false; and for a
capability with an `undefined`-valued member (and no duplicate member names),
`implemented_on` is false even on an object to which the capability was just
attached, because attach installed the slot holding `undefined`. -/
theorem C10_undefined_is_absent (c : Cap) (o : Obj) :
    ((∀ kv ∈ c.members, getSlot o kv.1 = JVal.undefined) →
      tc.collides_with c o = false ∧ tc.detect_collisions c o = (o, none)) ∧
    ((∃ kv ∈ c.members, getSlot o kv.1 = JVal.undefined) →
      tc.implemented_on c o = false) ∧
    ((c.members.map Prod.fst).Nodup →
      ∀ k, (k, JVal.undefined) ∈ c.members →
        tc.implemented_on c (tc.attach c o) = false) := by
  refine ⟨?_, ?_, ?_⟩
  · intro hall
    have hc : tc.collides_with c o = false := by
      apply Bool.eq_false_iff.mpr
      intro htrue
      rw [tc.collides_with] at htrue
      obtain ⟨kv, hm, hdec⟩ := List.any_eq_true.mp htrue
      simp only [decide_eq_true_eq] at hdec
      exact hdec (hall kv hm)
    exact ⟨hc, by simp [tc.detect_collisions, hc]⟩
  · rintro ⟨kv, hm, hu⟩
    exact implemented_on_undef_false c o kv hm hu
  · intro hnd k hk
    apply implemented_on_undef_false c _ (k, JVal.undefined) hk
    show getSlot (tc.attach c o) k = JVal.undefined
    rw [tc.attach_eq_attachFold, tc.getSlot_attachFold_mem _ _ _ _ hnd hk]
    rfl

/-- Claim C10 (witness): the undefined-as-absent theorem applied to the
capability with the `undefined`-valued member `u`: on an object whose `u`
slot exists but holds `undefined` there is no collision and no
implementation, and even right after attaching the capability to an empty
object it is still not implemented. -/
theorem C10_undefined_is_absent_witness :
    tc.collides_with capC10 [("u", JVal.undefined)] = false ∧
    tc.implemented_on capC10 [("u", JVal.undefined)] = false ∧
    tc.implemented_on capC10 (tc.attach capC10 []) = false :=
  ⟨((C10_undefined_is_absent capC10 [("u", JVal.undefined)]).1 (by decide)).1,
   (C10_undefined_is_absent capC10 [("u", JVal.undefined)]).2.1
     ⟨("u", JVal.undefined), by decide, by decide⟩,
   (C10_undefined_is_absent capC10 []).2.2 (by decide) "u" (by decide)⟩
